import Mathlib

/-!
Shallow embedding of `src/api/schema/components/mod.rs`: the component
registry, the name-based diff in `update_config`, the broadcast event bus,
and the query/subscription surface.  The `state`, `source`, `transform` and
`sink` submodules are not part of the source fragment; their operations are
modelled from the spec where noted.
-/

set_option autoImplicit false

namespace VectorApi

/-- `source::Data`: name, component type tag and declared output type.
The output type is opaque metadata; it is embedded as a string. -/
structure SourceData where
  name : String
  component_type : String
  output_type : String
deriving DecidableEq, Repr

/-- `transform::Data`: name, component type tag and declared inputs. -/
structure TransformData where
  name : String
  component_type : String
  inputs : List String
deriving DecidableEq, Repr

/-- `sink::Data`: name, component type tag and declared inputs. -/
structure SinkData where
  name : String
  component_type : String
  inputs : List String
deriving DecidableEq, Repr

/-- The `Component` enum: a tagged union over sources, transforms and sinks.
The Rust newtype wrappers `source::Source(Data)` etc. are flattened to their
payload. -/
inductive Component where
  | source (d : SourceData)
  | transform (d : TransformData)
  | sink (d : SinkData)
deriving DecidableEq, Repr

/-- The shared `name` field of a component (the graphql interface field). -/
def componentName : Component → String
  | .source d => d.name
  | .transform d => d.name
  | .sink d => d.name

/-- A configured source as seen by `update_config`: the results of
`source.source_type()` and `source.output_type()`. -/
structure SourceOuter where
  source_type : String
  output_type : String
deriving DecidableEq, Repr

/-- The inner transform config, exposing `transform_type()`. -/
structure TransformInner where
  transform_type : String
deriving DecidableEq, Repr

/-- A configured transform as seen by `update_config`: `transform.inner`
and `transform.inputs`. -/
structure TransformOuter where
  inner : TransformInner
  inputs : List String
deriving DecidableEq, Repr

/-- The inner sink config, exposing `sink_type()`. -/
structure SinkInner where
  sink_type : String
deriving DecidableEq, Repr

/-- A configured sink as seen by `update_config`: `sink.inner` and
`sink.inputs`. -/
structure SinkOuter where
  inner : SinkInner
  inputs : List String
deriving DecidableEq, Repr

/-- The slice of `crate::config::Config` read by `update_config`: the three
name-indexed component sections, embedded as association lists. -/
structure Config where
  sources : List (String × SourceOuter)
  transforms : List (String × TransformOuter)
  sinks : List (String × SinkOuter)
deriving DecidableEq, Repr

/-- A registry snapshot: the `HashMap<String, Component>` held by `state`,
embedded as an association list with unique keys. -/
abbrev Snapshot := List (String × Component)

/-- Removes every binding of key `k` from a snapshot. -/
def eraseKey : Snapshot → String → Snapshot
  | [], _ => []
  | (a, b) :: rest, k => if a = k then eraseKey rest k else (a, b) :: eraseKey rest k

/-- `HashMap::insert`: binds `k` to `v`, replacing any previous binding. -/
def insertSnap (m : Snapshot) (k : String) (v : Component) : Snapshot :=
  (k, v) :: eraseKey m k

/-- The key set of a snapshot. -/
def keys (m : Snapshot) : List String :=
  m.map Prod.fst

/-- Modelled from the spec: `state::component_by_name`, the registry lookup
`get(name) -> Component | NotFound` (§4.1); `none` is the NotFound case. -/
def component_by_name : Snapshot → String → Option Component
  | [], _ => none
  | (k, c) :: rest, n => if k = n then some c else component_by_name rest n

/-- Modelled from the spec: `state::get_component_names`, the name set of
the current snapshot. -/
def get_component_names (m : Snapshot) : List String :=
  keys m

/-- The component built for a configured source in `update_config`. -/
def mkSource (name : String) (sc : SourceOuter) : Component :=
  .source ⟨name, sc.source_type, sc.output_type⟩

/-- The component built for a configured transform in `update_config`. -/
def mkTransform (name : String) (tc : TransformOuter) : Component :=
  .transform ⟨name, tc.inner.transform_type, tc.inputs⟩

/-- The component built for a configured sink in `update_config`. -/
def mkSink (name : String) (kc : SinkOuter) : Component :=
  .sink ⟨name, kc.inner.sink_type, kc.inputs⟩

/-- The `new_components` map built by the three loops at the start of
`update_config`: sources, then transforms, then sinks, inserted into one
`HashMap` keyed by name. -/
def buildComponents (config : Config) : Snapshot :=
  config.sinks.foldl (fun m p => insertSnap m p.1 (mkSink p.1 p.2))
    (config.transforms.foldl (fun m p => insertSnap m p.1 (mkTransform p.1 p.2))
      (config.sources.foldl (fun m p => insertSnap m p.1 (mkSource p.1 p.2)) []))

/-- The `ComponentChanged` event enum. -/
inductive ComponentChanged where
  | added (c : Component)
  | removed (c : Component)
deriving DecidableEq, Repr

/-- The name carried by a change event's payload. -/
def eventName : ComponentChanged → String
  | .added c => componentName c
  | .removed c => componentName c

/-- Whether an event is an `Added` event. -/
def isAddedEvent : ComponentChanged → Bool
  | .added _ => true
  | .removed _ => false

/-- Whether an event is a `Removed` event. -/
def isRemovedEvent : ComponentChanged → Bool
  | .added _ => false
  | .removed _ => true

/-- The `Removed` events published by `update_config`: one per name in
`existing_component_names.difference(&new_component_names)`, with the
payload looked up in the prior snapshot via `state::component_by_name`.
The lookup's NotFound case publishes nothing (it is proved unreachable). -/
def removedEvents (old new_components : Snapshot) : List ComponentChanged :=
  ((get_component_names old).filter (fun n => n ∉ keys new_components)).filterMap
    (fun n => (component_by_name old n).map ComponentChanged.removed)

/-- The `Added` events published by `update_config`: one per name in
`new_component_names.difference(&existing_component_names)`, with the
payload taken from `new_components` (the `.get(name).unwrap()`; the `none`
case publishes nothing and is proved unreachable). -/
def addedEvents (old new_components : Snapshot) : List ComponentChanged :=
  ((keys new_components).filter (fun n => n ∉ get_component_names old)).filterMap
    (fun n => (component_by_name new_components n).map ComponentChanged.added)

/-- One observable step of `update_config`: a send on `COMPONENT_CHANGED`
or the final `state::update`. -/
inductive Action where
  | publish (e : ComponentChanged)
  | setState (m : Snapshot)
deriving DecidableEq, Repr

/-- `update_config(config)`, as the sequence of observable actions it
performs from a prior snapshot `old`: publish all removals, then all
additions, then override the stored state with `new_components`. -/
def update_config (old : Snapshot) (config : Config) : List Action :=
  let new_components := buildComponents config
  (removedEvents old new_components).map Action.publish ++
    (addedEvents old new_components).map Action.publish ++
    [Action.setState new_components]

/-- The events published by a list of actions, in order. -/
def eventsOf (actions : List Action) : List ComponentChanged :=
  actions.filterMap (fun a => match a with
    | .publish e => some e
    | .setState _ => none)

/-- The error values a broadcast receiver can observe between items
(`RecvError::Lagged` and `RecvError::Closed`). -/
inductive RecvError where
  | lagged (n : Nat)
  | closed
deriving DecidableEq, Repr

/-- Modelled from the spec: the bounded per-subscriber buffering of the
broadcast channel (§4.3).  Appends the event; if the buffer would exceed
the capacity, the oldest entries are dropped. -/
def pushBounded (cap : Nat) (buf : List ComponentChanged)
    (e : ComponentChanged) : List ComponentChanged :=
  let buf2 := buf ++ [e]
  if cap < buf2.length then buf2.drop (buf2.length - cap) else buf2

/-- Modelled from the spec: the `tokio::sync::broadcast` channel behind
`COMPONENT_CHANGED` (§4.3) — a capacity and one pending-event buffer per
subscriber. -/
structure BroadcastBus where
  capacity : Nat
  subscribers : List (List ComponentChanged)
deriving DecidableEq, Repr

/-- Modelled from the spec: `Sender::send` fans the event out to every
subscriber's bounded buffer, dropping the oldest events of a lagging
subscriber only; the boolean reports whether any receiver existed (Rust
returns `Err` when there is none, which `update_config` discards). -/
def BroadcastBus.publish (bus : BroadcastBus) (e : ComponentChanged) :
    BroadcastBus × Bool :=
  ({ bus with subscribers :=
      bus.subscribers.map (fun buf => pushBounded bus.capacity buf e) },
    !bus.subscribers.isEmpty)

/-- The `COMPONENT_CHANGED` lazy static: a broadcast channel of capacity 10,
created with no subscribers. -/
def COMPONENT_CHANGED : BroadcastBus :=
  { capacity := 10, subscribers := [] }

/-- The shared mutable state `update_config` acts on: the registry snapshot
held by `state` and the broadcast bus. -/
structure SystemState where
  registry : Snapshot
  bus : BroadcastBus
deriving DecidableEq, Repr

/-- Run one action against the shared state: a publish sends on the bus and
discards the result (`let _ = ...send(...)`); `setState` is
`state::update(new_components)`. -/
def runAction (s : SystemState) (a : Action) : SystemState :=
  match a with
  | .publish e => { s with bus := (s.bus.publish e).1 }
  | .setState m => { s with registry := m }

/-- A whole `update_config(config)` call run against the shared state. -/
def runUpdateConfig (s : SystemState) (config : Config) : SystemState :=
  (update_config s.registry config).foldl runAction s

/-- The `component_added` subscription stream: `filter_map` over the items
a receiver yields, keeping only `Ok(ComponentChanged::Added(c))` payloads
and skipping `Removed` events and receive errors. -/
def component_added
    (received : List (Except RecvError ComponentChanged)) : List Component :=
  received.filterMap (fun r => match r with
    | .ok (.added c) => some c
    | _ => none)

/-- The `component_removed` subscription stream: keeps only
`Ok(ComponentChanged::Removed(c))` payloads. -/
def component_removed
    (received : List (Except RecvError ComponentChanged)) : List Component :=
  received.filterMap (fun r => match r with
    | .ok (.removed c) => some c
    | _ => none)

/-- Modelled from the spec: `state::filter_components` applied with the
identity closure, i.e. the `components()` query — every component of the
current snapshot. -/
def components (m : Snapshot) : List Component :=
  m.map Prod.snd

/-- Modelled from the spec: `state::get_sources`, the `sources()` query —
the snapshot's components filtered to the Source kind. -/
def get_sources (m : Snapshot) : List SourceData :=
  m.filterMap (fun p => match p.2 with
    | .source d => some d
    | _ => none)

/-- Modelled from the spec: `state::get_transforms`, the `transforms()`
query. -/
def get_transforms (m : Snapshot) : List TransformData :=
  m.filterMap (fun p => match p.2 with
    | .transform d => some d
    | _ => none)

/-- Modelled from the spec: `state::get_sinks`, the `sinks()` query. -/
def get_sinks (m : Snapshot) : List SinkData :=
  m.filterMap (fun p => match p.2 with
    | .sink d => some d
    | _ => none)

/-- A snapshot is name-consistent when every entry's component carries the
key it is stored under. -/
abbrev nameConsistent (m : Snapshot) : Prop :=
  ∀ p ∈ m, componentName p.2 = p.1

/-- A one-source topology (scenario 1 of the spec). -/
def cfgIn : Config :=
  { sources := [("in", { source_type := "stdin", output_type := "log" })],
    transforms := [], sinks := [] }

/-- A topology with one source, one transform and one sink. -/
def cfgFull : Config :=
  { sources := [("in", { source_type := "stdin", output_type := "log" })],
    transforms := [("parse", { inner := { transform_type := "json" }, inputs := ["in"] })],
    sinks := [("out", { inner := { sink_type := "console" }, inputs := ["parse"] })] }

/-- The empty topology. -/
def cfgEmpty : Config :=
  { sources := [], transforms := [], sinks := [] }

/-! ### Snapshot lemmas -/

theorem eraseKey_sublist (m : Snapshot) (k : String) : (eraseKey m k).Sublist m := by
  induction m with
  | nil => exact List.Sublist.refl _
  | cons p rest ih =>
    obtain ⟨a, b⟩ := p
    by_cases h : a = k
    · simp only [eraseKey, if_pos h]
      exact List.Sublist.cons _ ih
    · simp only [eraseKey, if_neg h]
      exact List.Sublist.cons₂ _ ih

theorem component_by_name_eraseKey (m : Snapshot) (k n : String) (h : n ≠ k) :
    component_by_name (eraseKey m k) n = component_by_name m n := by
  induction m with
  | nil => rfl
  | cons p rest ih =>
    obtain ⟨a, b⟩ := p
    by_cases hk : a = k
    · have han : ¬ a = n := by
        rw [hk]
        exact fun hkn => h hkn.symm
      simp only [eraseKey, if_pos hk, component_by_name, if_neg han, ih]
    · by_cases han : a = n
      · simp only [eraseKey, if_neg hk, component_by_name, if_pos han]
      · simp only [eraseKey, if_neg hk, component_by_name, if_neg han, ih]

theorem component_by_name_insertSnap (m : Snapshot) (k n : String) (v : Component) :
    component_by_name (insertSnap m k v) n =
      if k = n then some v else component_by_name m n := by
  by_cases h : k = n
  · simp only [insertSnap, component_by_name, if_pos h]
  · have h2 : n ≠ k := fun hnk => h hnk.symm
    simp only [insertSnap, component_by_name, if_neg h,
      component_by_name_eraseKey m k n h2]

theorem mem_keys_iff_isSome (m : Snapshot) (n : String) :
    n ∈ keys m ↔ (component_by_name m n).isSome := by
  induction m with
  | nil => simp [keys, component_by_name]
  | cons p rest ih =>
    obtain ⟨a, b⟩ := p
    rw [show keys ((a, b) :: rest) = a :: keys rest from rfl, List.mem_cons]
    by_cases h : a = n
    · simp [component_by_name, h]
    · have hne : ¬ n = a := fun hn => h hn.symm
      simp only [component_by_name, if_neg h, hne, false_or]
      exact ih

theorem not_mem_keys_eraseKey (m : Snapshot) (k : String) :
    k ∉ keys (eraseKey m k) := by
  induction m with
  | nil => simp [eraseKey, keys]
  | cons p rest ih =>
    obtain ⟨a, b⟩ := p
    by_cases h : a = k
    · simpa only [eraseKey, if_pos h] using ih
    · simp only [eraseKey, if_neg h,
        show keys ((a, b) :: eraseKey rest k) = a :: keys (eraseKey rest k) from rfl,
        List.mem_cons]
      rintro (hka | hmem)
      · exact h hka.symm
      · exact ih hmem

theorem mem_keys_eraseKey (m : Snapshot) (k n : String) (h : n ≠ k) :
    n ∈ keys (eraseKey m k) ↔ n ∈ keys m := by
  rw [mem_keys_iff_isSome, mem_keys_iff_isSome, component_by_name_eraseKey m k n h]

theorem mem_keys_insertSnap (m : Snapshot) (k n : String) (v : Component) :
    n ∈ keys (insertSnap m k v) ↔ n = k ∨ n ∈ keys m := by
  rw [show keys (insertSnap m k v) = k :: keys (eraseKey m k) from rfl, List.mem_cons]
  by_cases h : n = k
  · simp [h]
  · rw [mem_keys_eraseKey m k n h]

theorem nodup_keys_insertSnap (m : Snapshot) (k : String) (v : Component)
    (h : (keys m).Nodup) : (keys (insertSnap m k v)).Nodup := by
  have herase : (keys (eraseKey m k)).Nodup :=
    h.sublist (List.Sublist.map Prod.fst (eraseKey_sublist m k))
  rw [show keys (insertSnap m k v) = k :: keys (eraseKey m k) from rfl]
  exact List.nodup_cons.mpr ⟨not_mem_keys_eraseKey m k, herase⟩

theorem component_by_name_mem (m : Snapshot) (n : String) (c : Component)
    (h : component_by_name m n = some c) : (n, c) ∈ m := by
  induction m with
  | nil => simp [component_by_name] at h
  | cons p rest ih =>
    obtain ⟨k, v⟩ := p
    by_cases hk : k = n
    · subst hk
      simp only [component_by_name, if_pos rfl] at h
      cases Option.some.inj h
      exact List.mem_cons_self _ _
    · simp only [component_by_name, if_neg hk] at h
      exact List.mem_cons_of_mem _ (ih h)

theorem mem_component_by_name (m : Snapshot) (n : String) (c : Component)
    (hnd : (keys m).Nodup) (h : (n, c) ∈ m) : component_by_name m n = some c := by
  induction m with
  | nil => simp at h
  | cons p rest ih =>
    obtain ⟨k, v⟩ := p
    rw [show keys ((k, v) :: rest) = k :: keys rest from rfl, List.nodup_cons] at hnd
    rcases List.mem_cons.mp h with h1 | h1
    · have hn : n = k := congrArg Prod.fst h1
      have hc : c = v := congrArg Prod.snd h1
      subst hn
      simp [component_by_name, hc]
    · have hnk : ¬ k = n := by
        intro hkn
        apply hnd.1
        rw [hkn]
        exact List.mem_map.mpr ⟨(n, c), h1, rfl⟩
      simp only [component_by_name, if_neg hnk]
      exact ih hnd.2 h1

theorem mem_iff_component_by_name (m : Snapshot) (n : String) (c : Component)
    (hnd : (keys m).Nodup) : (n, c) ∈ m ↔ component_by_name m n = some c :=
  ⟨mem_component_by_name m n c hnd, component_by_name_mem m n c⟩

/-! ### Fold lemmas for the three insertion loops -/

theorem component_by_name_foldl_not_mem {α : Type} (f : String → α → Component)
    (l : List (String × α)) (m0 : Snapshot) (n : String)
    (h : n ∉ l.map Prod.fst) :
    component_by_name (l.foldl (fun m p => insertSnap m p.1 (f p.1 p.2)) m0) n =
      component_by_name m0 n := by
  induction l generalizing m0 with
  | nil => rfl
  | cons p rest ih =>
    have hp : ¬ p.1 = n := by
      intro hpn
      exact h (by simp [hpn])
    simp only [List.foldl_cons]
    rw [ih _ (fun hmem => h (List.mem_cons_of_mem _ hmem))]
    rw [component_by_name_insertSnap]
    simp [hp]

theorem component_by_name_foldl_mem {α : Type} (f : String → α → Component)
    (l : List (String × α)) (m0 : Snapshot) (n : String) (a : α)
    (hnd : (l.map Prod.fst).Nodup) (hmem : (n, a) ∈ l) :
    component_by_name (l.foldl (fun m p => insertSnap m p.1 (f p.1 p.2)) m0) n =
      some (f n a) := by
  induction l generalizing m0 with
  | nil => simp at hmem
  | cons p rest ih =>
    rw [List.map_cons, List.nodup_cons] at hnd
    simp only [List.foldl_cons]
    rcases List.mem_cons.mp hmem with h1 | h1
    · subst h1
      rw [component_by_name_foldl_not_mem f rest _ n hnd.1,
        component_by_name_insertSnap]
      simp
    · exact ih _ hnd.2 h1

theorem mem_keys_foldl {α : Type} (f : String → α → Component)
    (l : List (String × α)) (m0 : Snapshot) (n : String) :
    n ∈ keys (l.foldl (fun m p => insertSnap m p.1 (f p.1 p.2)) m0) ↔
      n ∈ l.map Prod.fst ∨ n ∈ keys m0 := by
  induction l generalizing m0 with
  | nil => simp
  | cons p rest ih =>
    simp only [List.foldl_cons, List.map_cons, List.mem_cons]
    rw [ih, mem_keys_insertSnap]
    tauto

theorem nodup_keys_foldl {α : Type} (f : String → α → Component)
    (l : List (String × α)) (m0 : Snapshot) (h : (keys m0).Nodup) :
    (keys (l.foldl (fun m p => insertSnap m p.1 (f p.1 p.2)) m0)).Nodup := by
  induction l generalizing m0 with
  | nil => exact h
  | cons p rest ih => exact ih _ (nodup_keys_insertSnap _ _ _ h)

theorem nameConsistent_insertSnap (m : Snapshot) (k : String) (v : Component)
    (hm : nameConsistent m) (hv : componentName v = k) :
    nameConsistent (insertSnap m k v) := by
  intro p hp
  rcases List.mem_cons.mp hp with h1 | h1
  · rw [h1]
    exact hv
  · exact hm p ((eraseKey_sublist m k).subset h1)

theorem nameConsistent_foldl {α : Type} (f : String → α → Component)
    (l : List (String × α)) (m0 : Snapshot)
    (hm : nameConsistent m0) (hf : ∀ p ∈ l, componentName (f p.1 p.2) = p.1) :
    nameConsistent (l.foldl (fun m p => insertSnap m p.1 (f p.1 p.2)) m0) := by
  induction l generalizing m0 with
  | nil => exact hm
  | cons p rest ih =>
    exact ih _ (nameConsistent_insertSnap _ _ _ hm (hf p (List.mem_cons_self _ _)))
      (fun q hq => hf q (List.mem_cons_of_mem _ hq))

/-! ### Facts about the snapshot built by update_config -/

theorem nodup_keys_buildComponents (config : Config) :
    (keys (buildComponents config)).Nodup := by
  unfold buildComponents
  exact nodup_keys_foldl _ _ _
    (nodup_keys_foldl _ _ _ (nodup_keys_foldl _ _ _ (by simp [keys])))

theorem nameConsistent_buildComponents (config : Config) :
    nameConsistent (buildComponents config) := by
  unfold buildComponents
  apply nameConsistent_foldl
  · apply nameConsistent_foldl
    · apply nameConsistent_foldl
      · intro p hp
        simp at hp
      · intro p hp
        rfl
    · intro p hp
      rfl
  · intro p hp
    rfl

theorem mem_keys_buildComponents (config : Config) (n : String) :
    n ∈ keys (buildComponents config) ↔
      n ∈ config.sources.map Prod.fst ∨ n ∈ config.transforms.map Prod.fst ∨
        n ∈ config.sinks.map Prod.fst := by
  unfold buildComponents
  rw [mem_keys_foldl, mem_keys_foldl, mem_keys_foldl]
  simp [keys]
  tauto

/-! ### Events published by update_config -/

theorem eventsOf_append (a b : List Action) :
    eventsOf (a ++ b) = eventsOf a ++ eventsOf b := by
  simp [eventsOf]

theorem eventsOf_map_publish (l : List ComponentChanged) :
    eventsOf (l.map Action.publish) = l := by
  induction l with
  | nil => rfl
  | cons e rest ih =>
    simp only [eventsOf, List.filterMap_cons] at ih ⊢
    simp only [List.map_cons, List.filterMap_cons]
    rw [ih]

theorem eventsOf_update_config (old : Snapshot) (config : Config) :
    eventsOf (update_config old config) =
      removedEvents old (buildComponents config) ++
        addedEvents old (buildComponents config) := by
  simp only [update_config]
  rw [eventsOf_append, eventsOf_append, eventsOf_map_publish, eventsOf_map_publish]
  simp [eventsOf]

theorem mem_removedEvents (old new_components : Snapshot) (e : ComponentChanged)
    (h : e ∈ removedEvents old new_components) : isRemovedEvent e = true := by
  rcases List.mem_filterMap.mp h with ⟨n, _, hn⟩
  rcases Option.map_eq_some'.mp hn with ⟨c, _, hc⟩
  rw [← hc]
  rfl

theorem mem_addedEvents (old new_components : Snapshot) (e : ComponentChanged)
    (h : e ∈ addedEvents old new_components) : isAddedEvent e = true := by
  rcases List.mem_filterMap.mp h with ⟨n, _, hn⟩
  rcases Option.map_eq_some'.mp hn with ⟨c, _, hc⟩
  rw [← hc]
  rfl

theorem filter_eq_nil_of_pred_false (l : List ComponentChanged)
    (pred : ComponentChanged → Bool) (h : ∀ e ∈ l, pred e = false) :
    l.filter pred = [] := by
  induction l with
  | nil => rfl
  | cons e rest ih =>
    rw [List.filter_cons, h e (List.mem_cons_self _ _)]
    exact ih (fun x hx => h x (List.mem_cons_of_mem _ hx))

theorem filter_events_not_mem (m : Snapshot) (mk : Component → ComponentChanged)
    (pred : ComponentChanged → Bool) (names : List String) (n : String)
    (hcons : nameConsistent m)
    (hpred : ∀ c, pred (mk c) = (eventName (mk c) == n))
    (hname : ∀ c, eventName (mk c) = componentName c)
    (hn : n ∉ names) :
    (names.filterMap (fun x => (component_by_name m x).map mk)).filter pred = [] := by
  induction names with
  | nil => rfl
  | cons x rest ih =>
    have hxn : x ≠ n := fun hx => hn (hx ▸ List.mem_cons_self _ _)
    rw [List.filterMap_cons]
    cases hx : component_by_name m x with
    | none => exact ih (fun hr => hn (List.mem_cons_of_mem _ hr))
    | some c =>
      have hcx : componentName c = x := hcons (x, c) (component_by_name_mem m x c hx)
      have hp : pred (mk c) = false := by
        rw [hpred, hname, hcx]
        exact beq_eq_false_iff_ne.mpr hxn
      simp only [Option.map_some']
      rw [List.filter_cons, hp]
      exact ih (fun hr => hn (List.mem_cons_of_mem _ hr))

theorem filter_events_mem (m : Snapshot) (mk : Component → ComponentChanged)
    (pred : ComponentChanged → Bool) (names : List String) (n : String)
    (hnd : names.Nodup) (hsub : ∀ x ∈ names, x ∈ keys m)
    (hcons : nameConsistent m)
    (hpred : ∀ c, pred (mk c) = (eventName (mk c) == n))
    (hname : ∀ c, eventName (mk c) = componentName c)
    (hn : n ∈ names) :
    ∃ c, component_by_name m n = some c ∧
      (names.filterMap (fun x => (component_by_name m x).map mk)).filter pred =
        [mk c] := by
  induction names with
  | nil => simp at hn
  | cons x rest ih =>
    rw [List.nodup_cons] at hnd
    rcases List.mem_cons.mp hn with h1 | h1
    · subst h1
      have hsome : (component_by_name m n).isSome :=
        (mem_keys_iff_isSome m n).mp (hsub n (List.mem_cons_self _ _))
      cases hx : component_by_name m n with
      | none => rw [hx] at hsome; simp at hsome
      | some c =>
        refine ⟨c, rfl, ?_⟩
        have hcx : componentName c = n := hcons (n, c) (component_by_name_mem m n c hx)
        have hp : pred (mk c) = true := by
          rw [hpred, hname, hcx]
          exact beq_self_eq_true n
        rw [List.filterMap_cons, hx]
        simp only [Option.map_some']
        rw [List.filter_cons, hp]
        simp only [if_true]
        rw [filter_events_not_mem m mk pred rest n hcons hpred hname hnd.1]
    · have hxn : x ≠ n := fun hx => hnd.1 (hx ▸ h1)
      rcases ih hnd.2 (fun y hy => hsub y (List.mem_cons_of_mem _ hy)) h1 with
        ⟨c, hc, hfilter⟩
      refine ⟨c, hc, ?_⟩
      rw [List.filterMap_cons]
      cases hx : component_by_name m x with
      | none => exact hfilter
      | some cx =>
        have hcx : componentName cx = x := hcons (x, cx) (component_by_name_mem m x cx hx)
        have hp : pred (mk cx) = false := by
          rw [hpred, hname, hcx]
          exact beq_eq_false_iff_ne.mpr hxn
        simp only [Option.map_some']
        rw [List.filter_cons, hp]
        exact hfilter

/-! ### Running update_config against the shared state -/

theorem foldl_runAction_publish (l : List ComponentChanged) (s : SystemState) :
    (l.map Action.publish).foldl runAction s =
      { s with bus := l.foldl (fun b e => (b.publish e).1) s.bus } := by
  induction l generalizing s with
  | nil => rfl
  | cons e rest ih =>
    simp only [List.map_cons, List.foldl_cons]
    rw [ih]
    rfl

theorem runUpdateConfig_eq (s : SystemState) (config : Config) :
    runUpdateConfig s config =
      { registry := buildComponents config,
        bus := (removedEvents s.registry (buildComponents config) ++
          addedEvents s.registry (buildComponents config)).foldl
            (fun b e => (b.publish e).1) s.bus } := by
  simp only [runUpdateConfig, update_config]
  rw [← List.map_append, List.foldl_append, foldl_runAction_publish]
  rfl

theorem registry_runUpdateConfig (s : SystemState) (config : Config) :
    (runUpdateConfig s config).registry = buildComponents config := by
  rw [runUpdateConfig_eq]

theorem publish_no_subscribers (bus : BroadcastBus) (e : ComponentChanged)
    (h : bus.subscribers = []) : (bus.publish e).1 = bus := by
  obtain ⟨cap, subs⟩ := bus
  simp only at h
  subst h
  rfl

theorem foldl_publish_no_subscribers (l : List ComponentChanged)
    (bus : BroadcastBus) (h : bus.subscribers = []) :
    l.foldl (fun b e => (b.publish e).1) bus = bus := by
  induction l generalizing bus with
  | nil => rfl
  | cons e rest ih =>
    simp only [List.foldl_cons]
    rw [publish_no_subscribers bus e h]
    exact ih bus h

theorem length_filterMap_of_isSome {A B : Type} (g : A → Option B) (l : List A)
    (h : ∀ x ∈ l, (g x).isSome) : (l.filterMap g).length = l.length := by
  induction l with
  | nil => rfl
  | cons x rest ih =>
    have hx := h x (List.mem_cons_self _ _)
    rw [List.filterMap_cons]
    cases hg : g x with
    | none => rw [hg] at hx; simp at hx
    | some b =>
      simp only [List.length_cons]
      rw [ih (fun y hy => h y (List.mem_cons_of_mem _ hy))]


/-! ### Lookup characterization of the built snapshot -/

theorem component_by_name_buildComponents_source (config : Config) (n : String)
    (sc : SourceOuter) (hs : (config.sources.map Prod.fst).Nodup)
    (hnt : n ∉ config.transforms.map Prod.fst)
    (hnk : n ∉ config.sinks.map Prod.fst)
    (hmem : (n, sc) ∈ config.sources) :
    component_by_name (buildComponents config) n = some (mkSource n sc) := by
  unfold buildComponents
  rw [component_by_name_foldl_not_mem mkSink config.sinks _ n hnk,
    component_by_name_foldl_not_mem mkTransform config.transforms _ n hnt]
  exact component_by_name_foldl_mem mkSource config.sources [] n sc hs hmem

theorem component_by_name_buildComponents_transform (config : Config) (n : String)
    (tc : TransformOuter) (ht : (config.transforms.map Prod.fst).Nodup)
    (hnk : n ∉ config.sinks.map Prod.fst)
    (hmem : (n, tc) ∈ config.transforms) :
    component_by_name (buildComponents config) n = some (mkTransform n tc) := by
  unfold buildComponents
  rw [component_by_name_foldl_not_mem mkSink config.sinks _ n hnk]
  exact component_by_name_foldl_mem mkTransform config.transforms _ n tc ht hmem

theorem component_by_name_buildComponents_sink (config : Config) (n : String)
    (kc : SinkOuter) (hk : (config.sinks.map Prod.fst).Nodup)
    (hmem : (n, kc) ∈ config.sinks) :
    component_by_name (buildComponents config) n = some (mkSink n kc) := by
  unfold buildComponents
  exact component_by_name_foldl_mem mkSink config.sinks _ n kc hk hmem

theorem component_by_name_buildComponents (config : Config)
    (hs : (config.sources.map Prod.fst).Nodup)
    (ht : (config.transforms.map Prod.fst).Nodup)
    (hk : (config.sinks.map Prod.fst).Nodup)
    (hst : ∀ n ∈ config.sources.map Prod.fst, n ∉ config.transforms.map Prod.fst)
    (hsk : ∀ n ∈ config.sources.map Prod.fst, n ∉ config.sinks.map Prod.fst)
    (htk : ∀ n ∈ config.transforms.map Prod.fst, n ∉ config.sinks.map Prod.fst)
    (n : String) (c : Component) :
    component_by_name (buildComponents config) n = some c ↔
      ((∃ sc, (n, sc) ∈ config.sources ∧ c = mkSource n sc) ∨
       (∃ tc, (n, tc) ∈ config.transforms ∧ c = mkTransform n tc) ∨
       (∃ kc, (n, kc) ∈ config.sinks ∧ c = mkSink n kc)) := by
  constructor
  · intro h
    have hmem : n ∈ keys (buildComponents config) :=
      (mem_keys_iff_isSome _ n).mpr (by rw [h]; rfl)
    rcases (mem_keys_buildComponents config n).mp hmem with hcase | hcase | hcase
    · rcases List.mem_map.mp hcase with ⟨p, hp, hpn⟩
      have hp2 : (n, p.2) ∈ config.sources := by
        rw [← hpn]
        exact hp
      have hl := component_by_name_buildComponents_source config n p.2 hs
        (hst n hcase) (hsk n hcase) hp2
      rw [hl] at h
      exact Or.inl ⟨p.2, hp2, (Option.some.inj h).symm⟩
    · rcases List.mem_map.mp hcase with ⟨p, hp, hpn⟩
      have hp2 : (n, p.2) ∈ config.transforms := by
        rw [← hpn]
        exact hp
      have hl := component_by_name_buildComponents_transform config n p.2 ht
        (htk n hcase) hp2
      rw [hl] at h
      exact Or.inr (Or.inl ⟨p.2, hp2, (Option.some.inj h).symm⟩)
    · rcases List.mem_map.mp hcase with ⟨p, hp, hpn⟩
      have hp2 : (n, p.2) ∈ config.sinks := by
        rw [← hpn]
        exact hp
      have hl := component_by_name_buildComponents_sink config n p.2 hk hp2
      rw [hl] at h
      exact Or.inr (Or.inr ⟨p.2, hp2, (Option.some.inj h).symm⟩)
  · rintro (⟨sc, hmem, hc⟩ | ⟨tc, hmem, hc⟩ | ⟨kc, hmem, hc⟩)
    · have hcase : n ∈ config.sources.map Prod.fst :=
        List.mem_map.mpr ⟨(n, sc), hmem, rfl⟩
      rw [hc]
      exact component_by_name_buildComponents_source config n sc hs
        (hst n hcase) (hsk n hcase) hmem
    · have hcase : n ∈ config.transforms.map Prod.fst :=
        List.mem_map.mpr ⟨(n, tc), hmem, rfl⟩
      rw [hc]
      exact component_by_name_buildComponents_transform config n tc ht
        (htk n hcase) hmem
    · rw [hc]
      exact component_by_name_buildComponents_sink config n kc hk hmem


/-! ### Claim theorems -/

/-- C1: In every `update_config` call from a well-formed prior snapshot,
each name present in the new snapshot but not in the old one produces
exactly one `Added` event carrying that name's component, and each name
present in the old snapshot but not in the new one produces exactly one
`Removed` event carrying that name's component. -/
theorem C1_diff_events_exactly_once (old : Snapshot) (config : Config)
    (hnd : (keys old).Nodup) (hcons : nameConsistent old) (n : String) :
    (n ∈ keys (buildComponents config) → n ∉ keys old →
      ∃ c, component_by_name (buildComponents config) n = some c ∧
        (eventsOf (update_config old config)).filter
          (fun e => isAddedEvent e && (eventName e == n)) =
          [ComponentChanged.added c]) ∧
    (n ∈ keys old → n ∉ keys (buildComponents config) →
      ∃ c, component_by_name old n = some c ∧
        (eventsOf (update_config old config)).filter
          (fun e => isRemovedEvent e && (eventName e == n)) =
          [ComponentChanged.removed c]) := by
  constructor
  · intro h1 h2
    have hrem0 : ∀ e ∈ removedEvents old (buildComponents config),
        (isAddedEvent e && (eventName e == n)) = false := by
      intro e he
      have hre := mem_removedEvents old (buildComponents config) e he
      cases e with
      | added c => simp [isRemovedEvent] at hre
      | removed c => simp [isAddedEvent]
    have hn : n ∈ (keys (buildComponents config)).filter
        (fun x => x ∉ get_component_names old) :=
      List.mem_filter.mpr ⟨h1, by simpa [get_component_names] using h2⟩
    rcases filter_events_mem (buildComponents config) ComponentChanged.added
        (fun e => isAddedEvent e && (eventName e == n))
        ((keys (buildComponents config)).filter (fun x => x ∉ get_component_names old)) n
        ((nodup_keys_buildComponents config).filter _)
        (fun x hx => List.mem_of_mem_filter hx)
        (nameConsistent_buildComponents config)
        (fun c => by simp [isAddedEvent])
        (fun c => rfl) hn with ⟨c, hc, hfilter⟩
    refine ⟨c, hc, ?_⟩
    rw [eventsOf_update_config, List.filter_append,
      filter_eq_nil_of_pred_false _ _ hrem0, List.nil_append]
    exact hfilter
  · intro h1 h2
    have hadd0 : ∀ e ∈ addedEvents old (buildComponents config),
        (isRemovedEvent e && (eventName e == n)) = false := by
      intro e he
      have hae := mem_addedEvents old (buildComponents config) e he
      cases e with
      | added c => simp [isRemovedEvent]
      | removed c => simp [isAddedEvent] at hae
    have hn : n ∈ (get_component_names old).filter
        (fun x => x ∉ keys (buildComponents config)) :=
      List.mem_filter.mpr ⟨h1, by simpa using h2⟩
    rcases filter_events_mem old ComponentChanged.removed
        (fun e => isRemovedEvent e && (eventName e == n))
        ((get_component_names old).filter (fun x => x ∉ keys (buildComponents config))) n
        (hnd.filter _)
        (fun x hx => List.mem_of_mem_filter hx)
        hcons
        (fun c => by simp [isRemovedEvent])
        (fun c => rfl) hn with ⟨c, hc, hfilter⟩
    refine ⟨c, hc, ?_⟩
    rw [eventsOf_update_config, List.filter_append,
      filter_eq_nil_of_pred_false _ _ hadd0, List.append_nil]
    exact hfilter

/-- C1 witness: updating an empty registry with the one-source topology
publishes exactly one `Added` event for the name `in`. -/
theorem C1_witness :
    ∃ c, component_by_name (buildComponents cfgIn) "in" = some c ∧
      (eventsOf (update_config [] cfgIn)).filter
        (fun e => isAddedEvent e && (eventName e == "in")) =
        [ComponentChanged.added c] :=
  (C1_diff_events_exactly_once [] cfgIn (by simp [keys]) (by simp) "in").1
    (by decide) (by decide)

/-- C2: A name present in both the old and the new snapshot produces no
event at all, whatever the component's kind or content in either
snapshot. -/
theorem C2_common_name_no_event (old : Snapshot) (config : Config)
    (hcons : nameConsistent old) (n : String)
    (h1 : n ∈ keys old) (h2 : n ∈ keys (buildComponents config)) :
    (eventsOf (update_config old config)).filter (fun e => eventName e == n) = [] := by
  have hrem : n ∉ (get_component_names old).filter
      (fun x => x ∉ keys (buildComponents config)) := by
    intro hmem
    exact absurd h2 (by simpa using (List.mem_filter.mp hmem).2)
  have hadd : n ∉ (keys (buildComponents config)).filter
      (fun x => x ∉ get_component_names old) := by
    intro hmem
    exact absurd h1 (by simpa [get_component_names] using (List.mem_filter.mp hmem).2)
  rw [eventsOf_update_config, List.filter_append]
  simp only [removedEvents, addedEvents]
  rw [filter_events_not_mem old ComponentChanged.removed _ _ n hcons
      (fun c => rfl) (fun c => rfl) hrem,
    filter_events_not_mem (buildComponents config) ComponentChanged.added _ _ n
      (nameConsistent_buildComponents config) (fun c => rfl) (fun c => rfl) hadd]
  rfl

/-- C2 witness: the name `in` kept across an update from the one-source
topology to the full topology produces no event. -/
theorem C2_witness :
    (eventsOf (update_config (buildComponents cfgIn) cfgFull)).filter
      (fun e => eventName e == "in") = [] :=
  C2_common_name_no_event (buildComponents cfgIn) cfgFull
    (by decide) "in" (by decide) (by decide)

/-- C3: Running `update_config` again with the same configuration right
after a first call publishes zero events: the diff of the stored snapshot
against the snapshot rebuilt from the same configuration is empty in both
directions. -/
theorem C3_second_update_no_events (s : SystemState) (config : Config) :
    eventsOf (update_config (runUpdateConfig s config).registry config) = [] := by
  rw [registry_runUpdateConfig, eventsOf_update_config]
  have h1 : (get_component_names (buildComponents config)).filter
      (fun n => n ∉ keys (buildComponents config)) = [] := by
    rw [List.filter_eq_nil_iff]
    intro x hx
    simp only [get_component_names] at hx
    simp [hx]
  have h2 : (keys (buildComponents config)).filter
      (fun n => n ∉ get_component_names (buildComponents config)) = [] := by
    rw [List.filter_eq_nil_iff]
    intro x hx
    simp [get_component_names, hx]
  simp only [removedEvents, addedEvents]
  rw [h1, h2]
  rfl

/-- C4: Every `Removed` event published by `update_config` carries a full
component looked up in the prior snapshot, and the whole call is the
published events followed by the single snapshot replacement, which comes
last. -/
theorem C4_removed_payload_and_state_last (old : Snapshot) (config : Config) :
    (∀ c, ComponentChanged.removed c ∈ eventsOf (update_config old config) →
      ∃ n, component_by_name old n = some c) ∧
    update_config old config =
      (eventsOf (update_config old config)).map Action.publish ++
        [Action.setState (buildComponents config)] := by
  constructor
  · intro c hc
    rw [eventsOf_update_config] at hc
    rcases List.mem_append.mp hc with hmem | hmem
    · rcases List.mem_filterMap.mp hmem with ⟨x, _, hx⟩
      rcases Option.map_eq_some'.mp hx with ⟨a, ha, hac⟩
      exact ⟨x, by rw [ha, ComponentChanged.removed.inj hac]⟩
    · have := mem_addedEvents old (buildComponents config) _ hmem
      simp [isAddedEvent] at this
  · rw [eventsOf_update_config, List.map_append]
    simp [update_config]

/-- C4 witness: in the update from the one-source topology to the empty
topology, the `Removed` payload for `in` comes from the prior snapshot. -/
theorem C4_witness :
    ∃ n, component_by_name (buildComponents cfgIn) n =
      some (Component.source
        { name := "in", component_type := "stdin", output_type := "log" }) :=
  (C4_removed_payload_and_state_last (buildComponents cfgIn) cfgEmpty).1
    (Component.source { name := "in", component_type := "stdin", output_type := "log" })
    (by decide)


/-- C5: After `update_config(config)` on a validated configuration (unique
names within and across the three sections), the stored snapshot maps
exactly the configured names to the components built from their entries,
and the query operations return exactly those components, filtered by kind
where named. -/
theorem C5_snapshot_and_queries (s : SystemState) (config : Config)
    (hs : (config.sources.map Prod.fst).Nodup)
    (ht : (config.transforms.map Prod.fst).Nodup)
    (hk : (config.sinks.map Prod.fst).Nodup)
    (hst : ∀ n ∈ config.sources.map Prod.fst, n ∉ config.transforms.map Prod.fst)
    (hsk : ∀ n ∈ config.sources.map Prod.fst, n ∉ config.sinks.map Prod.fst)
    (htk : ∀ n ∈ config.transforms.map Prod.fst, n ∉ config.sinks.map Prod.fst) :
    (runUpdateConfig s config).registry = buildComponents config ∧
    (∀ n c, component_by_name (buildComponents config) n = some c ↔
      ((∃ sc, (n, sc) ∈ config.sources ∧ c = mkSource n sc) ∨
       (∃ tc, (n, tc) ∈ config.transforms ∧ c = mkTransform n tc) ∨
       (∃ kc, (n, kc) ∈ config.sinks ∧ c = mkSink n kc))) ∧
    (∀ c, c ∈ components (buildComponents config) ↔
      ∃ n, component_by_name (buildComponents config) n = some c) ∧
    (∀ d, d ∈ get_sources (buildComponents config) ↔
      ∃ sc, (d.name, sc) ∈ config.sources ∧
        d = ⟨d.name, sc.source_type, sc.output_type⟩) ∧
    (∀ d, d ∈ get_transforms (buildComponents config) ↔
      ∃ tc, (d.name, tc) ∈ config.transforms ∧
        d = ⟨d.name, tc.inner.transform_type, tc.inputs⟩) ∧
    (∀ d, d ∈ get_sinks (buildComponents config) ↔
      ∃ kc, (d.name, kc) ∈ config.sinks ∧
        d = ⟨d.name, kc.inner.sink_type, kc.inputs⟩) := by
  have hlook := component_by_name_buildComponents config hs ht hk hst hsk htk
  have hnodup := nodup_keys_buildComponents config
  refine ⟨registry_runUpdateConfig s config, hlook, ?_, ?_, ?_, ?_⟩
  · intro c
    constructor
    · intro hc
      rcases List.mem_map.mp hc with ⟨p, hp, hpc⟩
      exact ⟨p.1, by
        rw [← hpc]
        exact mem_component_by_name _ _ _ hnodup hp⟩
    · rintro ⟨n, hn⟩
      exact List.mem_map.mpr ⟨(n, c), component_by_name_mem _ _ _ hn, rfl⟩
  · intro d
    constructor
    · intro hd
      rcases List.mem_filterMap.mp hd with ⟨p, hp, hpd⟩
      have hp2 : p.2 = Component.source d := by
        cases h2 : p.2 <;> rw [h2] at hpd <;> simp at hpd
        rw [hpd]
      have hl : component_by_name (buildComponents config) p.1 =
          some (Component.source d) := by
        rw [← hp2]
        exact mem_component_by_name _ _ _ hnodup hp
      rcases (hlook p.1 (Component.source d)).mp hl with
        ⟨sc, hmem, hc⟩ | ⟨tc, _, hc⟩ | ⟨kc, _, hc⟩
      · have hdeq : d = SourceData.mk p.1 sc.source_type sc.output_type :=
          congrArg (fun x => match x with
            | Component.source d => d
            | _ => d) hc
        have hdn : d.name = p.1 := by rw [hdeq]
        refine ⟨sc, ?_, ?_⟩
        · rw [hdn]
          exact hmem
        · rw [hdeq]
      · simp [mkTransform] at hc
      · simp [mkSink] at hc
    · rintro ⟨sc, hmem, hd⟩
      have hl : component_by_name (buildComponents config) d.name =
          some (mkSource d.name sc) :=
        (hlook d.name (mkSource d.name sc)).mpr (Or.inl ⟨sc, hmem, rfl⟩)
      have hin : (d.name, mkSource d.name sc) ∈ buildComponents config :=
        component_by_name_mem _ _ _ hl
      exact List.mem_filterMap.mpr ⟨(d.name, mkSource d.name sc), hin, by
        simp [mkSource]
        rw [hd]⟩
  · intro d
    constructor
    · intro hd
      rcases List.mem_filterMap.mp hd with ⟨p, hp, hpd⟩
      have hp2 : p.2 = Component.transform d := by
        cases h2 : p.2 <;> rw [h2] at hpd <;> simp at hpd
        rw [hpd]
      have hl : component_by_name (buildComponents config) p.1 =
          some (Component.transform d) := by
        rw [← hp2]
        exact mem_component_by_name _ _ _ hnodup hp
      rcases (hlook p.1 (Component.transform d)).mp hl with
        ⟨sc, _, hc⟩ | ⟨tc, hmem, hc⟩ | ⟨kc, _, hc⟩
      · simp [mkSource] at hc
      · have hdeq : d = TransformData.mk p.1 tc.inner.transform_type tc.inputs :=
          congrArg (fun x => match x with
            | Component.transform d => d
            | _ => d) hc
        have hdn : d.name = p.1 := by rw [hdeq]
        refine ⟨tc, ?_, ?_⟩
        · rw [hdn]
          exact hmem
        · rw [hdeq]
      · simp [mkSink] at hc
    · rintro ⟨tc, hmem, hd⟩
      have hl : component_by_name (buildComponents config) d.name =
          some (mkTransform d.name tc) :=
        (hlook d.name (mkTransform d.name tc)).mpr (Or.inr (Or.inl ⟨tc, hmem, rfl⟩))
      have hin : (d.name, mkTransform d.name tc) ∈ buildComponents config :=
        component_by_name_mem _ _ _ hl
      exact List.mem_filterMap.mpr ⟨(d.name, mkTransform d.name tc), hin, by
        simp [mkTransform]
        rw [hd]⟩
  · intro d
    constructor
    · intro hd
      rcases List.mem_filterMap.mp hd with ⟨p, hp, hpd⟩
      have hp2 : p.2 = Component.sink d := by
        cases h2 : p.2 <;> rw [h2] at hpd <;> simp at hpd
        rw [hpd]
      have hl : component_by_name (buildComponents config) p.1 =
          some (Component.sink d) := by
        rw [← hp2]
        exact mem_component_by_name _ _ _ hnodup hp
      rcases (hlook p.1 (Component.sink d)).mp hl with
        ⟨sc, _, hc⟩ | ⟨tc, _, hc⟩ | ⟨kc, hmem, hc⟩
      · simp [mkSource] at hc
      · simp [mkTransform] at hc
      · have hdeq : d = SinkData.mk p.1 kc.inner.sink_type kc.inputs :=
          congrArg (fun x => match x with
            | Component.sink d => d
            | _ => d) hc
        have hdn : d.name = p.1 := by rw [hdeq]
        refine ⟨kc, ?_, ?_⟩
        · rw [hdn]
          exact hmem
        · rw [hdeq]
    · rintro ⟨kc, hmem, hd⟩
      have hl : component_by_name (buildComponents config) d.name =
          some (mkSink d.name kc) :=
        (hlook d.name (mkSink d.name kc)).mpr (Or.inr (Or.inr ⟨kc, hmem, rfl⟩))
      have hin : (d.name, mkSink d.name kc) ∈ buildComponents config :=
        component_by_name_mem _ _ _ hl
      exact List.mem_filterMap.mpr ⟨(d.name, mkSink d.name kc), hin, by
        simp [mkSink]
        rw [hd]⟩

/-- C5 witness: the registry after updating with the full topology is the
snapshot built from it. -/
theorem C5_witness :
    (runUpdateConfig { registry := [], bus := COMPONENT_CHANGED } cfgFull).registry =
      buildComponents cfgFull :=
  (C5_snapshot_and_queries { registry := [], bus := COMPONENT_CHANGED } cfgFull
    (by decide) (by decide) (by decide) (by decide) (by decide) (by decide)).1


/-- C6: The snapshot stored by `update_config` binds each name at most
once, whatever the kinds involved: its keys are pairwise distinct, and two
entries with the same name are the same entry. -/
theorem C6_unique_names (s : SystemState) (config : Config) :
    (keys (runUpdateConfig s config).registry).Nodup ∧
    ∀ n c c', (n, c) ∈ (runUpdateConfig s config).registry →
      (n, c') ∈ (runUpdateConfig s config).registry → c = c' := by
  rw [registry_runUpdateConfig]
  refine ⟨nodup_keys_buildComponents config, ?_⟩
  intro n c c' hmem1 hmem2
  have e1 := mem_component_by_name _ _ _ (nodup_keys_buildComponents config) hmem1
  have e2 := mem_component_by_name _ _ _ (nodup_keys_buildComponents config) hmem2
  rw [e1] at e2
  exact Option.some.inj e2

/-- C6 witness: the registry keys after updating with the full topology
are pairwise distinct. -/
theorem C6_witness :
    (keys (runUpdateConfig { registry := [], bus := COMPONENT_CHANGED }
      cfgFull).registry).Nodup :=
  (C6_unique_names { registry := [], bus := COMPONENT_CHANGED } cfgFull).1

/-- C7: With zero subscribers, `update_config` still completes: every send
is discarded without error, the bus is left unchanged, and the snapshot
replacement takes effect. -/
theorem C7_no_subscribers_ok (s : SystemState) (config : Config)
    (h : s.bus.subscribers = []) :
    (runUpdateConfig s config).registry = buildComponents config ∧
    (runUpdateConfig s config).bus = s.bus := by
  refine ⟨registry_runUpdateConfig s config, ?_⟩
  rw [runUpdateConfig_eq]
  exact foldl_publish_no_subscribers _ s.bus h

/-- C7 witness: updating with the one-source topology on the freshly
created bus (no subscribers) replaces the snapshot and leaves the bus as
it was. -/
theorem C7_witness :
    (runUpdateConfig { registry := [], bus := COMPONENT_CHANGED } cfgIn).registry =
      buildComponents cfgIn ∧
    (runUpdateConfig { registry := [], bus := COMPONENT_CHANGED } cfgIn).bus =
      COMPONENT_CHANGED :=
  C7_no_subscribers_ok { registry := [], bus := COMPONENT_CHANGED } cfgIn rfl

/-- C8: The `component_added` stream yields exactly the payloads of `Added`
events it receives, skipping `Removed` events and receive errors without
terminating; `component_removed` is symmetric. -/
theorem C8_streams_filter_events (xs : List (Except RecvError ComponentChanged))
    (c : Component) (e : RecvError) :
    component_added (xs ++ [Except.ok (ComponentChanged.added c)]) =
      component_added xs ++ [c] ∧
    component_added (xs ++ [Except.ok (ComponentChanged.removed c)]) =
      component_added xs ∧
    component_added (xs ++ [Except.error e]) = component_added xs ∧
    component_removed (xs ++ [Except.ok (ComponentChanged.removed c)]) =
      component_removed xs ++ [c] ∧
    component_removed (xs ++ [Except.ok (ComponentChanged.added c)]) =
      component_removed xs ∧
    component_removed (xs ++ [Except.error e]) = component_removed xs := by
  refine ⟨?_, ?_, ?_, ?_, ?_, ?_⟩ <;>
    simp [component_added, component_removed, List.filterMap_append,
      List.filterMap_cons]

/-- C8 witness: a single received `Added` event yields its payload. -/
theorem C8_witness :
    component_added [Except.ok (ComponentChanged.added (mkSource "x"
      { source_type := "s", output_type := "l" }))] =
      [mkSource "x" { source_type := "s", output_type := "l" }] :=
  (C8_streams_filter_events []
    (mkSource "x" { source_type := "s", output_type := "l" }) RecvError.closed).1

/-- C9: Every name the diff removes is drawn from the prior snapshot's own
key set, so the `state::component_by_name` lookup during removal
publication always succeeds, and no `Removed` event is lost to a failed
lookup (one event per removed name). -/
theorem C9_removed_lookup_never_fails (old : Snapshot) (config : Config) :
    (∀ n ∈ (get_component_names old).filter
        (fun x => x ∉ keys (buildComponents config)),
      (component_by_name old n).isSome) ∧
    (removedEvents old (buildComponents config)).length =
      ((get_component_names old).filter
        (fun x => x ∉ keys (buildComponents config))).length := by
  have hsome : ∀ n ∈ (get_component_names old).filter
      (fun x => x ∉ keys (buildComponents config)),
      (component_by_name old n).isSome := by
    intro n hn
    exact (mem_keys_iff_isSome old n).mp (List.mem_of_mem_filter hn)
  refine ⟨hsome, ?_⟩
  simp only [removedEvents]
  apply length_filterMap_of_isSome
  intro x hx
  rcases Option.isSome_iff_exists.mp (hsome x hx) with ⟨c, hc⟩
  simp [hc]

/-- C9 witness: the lookup for the name `in`, removed when the one-source
topology is replaced by the empty one, succeeds. -/
theorem C9_witness :
    (component_by_name (buildComponents cfgIn) "in").isSome :=
  (C9_removed_lookup_never_fails (buildComponents cfgIn) cfgEmpty).1 "in" (by decide)

/-- C10: The event bus is the one broadcast channel created with capacity
exactly 10 and no initial subscribers; a publish is a total function that
rewrites every subscriber's buffer independently, keeps each buffer within
the capacity, and on overflow drops only that buffer's oldest entries. -/
theorem C10_bus_capacity_and_lag :
    COMPONENT_CHANGED.capacity = 10 ∧
    COMPONENT_CHANGED.subscribers = [] ∧
    (∀ (bus : BroadcastBus) (e : ComponentChanged),
      ((bus.publish e).1).capacity = bus.capacity ∧
      ((bus.publish e).1).subscribers.length = bus.subscribers.length) ∧
    (∀ (bus : BroadcastBus) (e : ComponentChanged) (i : Nat),
      ((bus.publish e).1).subscribers[i]? =
        (bus.subscribers[i]?).map (fun buf => pushBounded bus.capacity buf e)) ∧
    (∀ (cap : Nat) (buf : List ComponentChanged) (e : ComponentChanged),
      buf.length ≤ cap → (pushBounded cap buf e).length ≤ cap) ∧
    (∀ (cap : Nat) (buf : List ComponentChanged) (e : ComponentChanged),
      buf.length = cap → 0 < cap → pushBounded cap buf e = buf.drop 1 ++ [e]) := by
  refine ⟨rfl, rfl, ?_, ?_, ?_, ?_⟩
  · intro bus e
    exact ⟨rfl, by simp [BroadcastBus.publish]⟩
  · intro bus e i
    simp [BroadcastBus.publish]
  · intro cap buf e h
    simp only [pushBounded]
    split
    · rename_i hlt
      rw [List.length_drop]
      simp only [List.length_append, List.length_singleton] at *
      omega
    · rename_i hge
      simp only [List.length_append, List.length_singleton] at *
      omega
  · intro cap buf e hlen hpos
    simp only [pushBounded]
    rw [if_pos (by simp [hlen])]
    rw [show (buf ++ [e]).length - cap = 1 by simp [hlen]]
    rw [List.drop_append_of_le_length (by omega)]

/-- C10 witness: publishing into a full buffer of ten pending events drops
exactly the oldest one. -/
theorem C10_witness :
    pushBounded 10 (List.replicate 10 (ComponentChanged.added (mkSource "x"
      { source_type := "s", output_type := "l" })))
      (ComponentChanged.added (mkSource "y" { source_type := "t", output_type := "m" })) =
    (List.replicate 10 (ComponentChanged.added (mkSource "x"
      { source_type := "s", output_type := "l" }))).drop 1 ++
      [ComponentChanged.added (mkSource "y" { source_type := "t", output_type := "m" })] :=
  C10_bus_capacity_and_lag.2.2.2.2.2 10 _ _ (by simp) (by decide)

/-- C3 witness: the second identical update on the one-source topology
publishes no event. -/
theorem C3_witness :
    eventsOf (update_config
      (runUpdateConfig { registry := [], bus := COMPONENT_CHANGED } cfgIn).registry
      cfgIn) = [] :=
  C3_second_update_no_events { registry := [], bus := COMPONENT_CHANGED } cfgIn

end VectorApi
